import Mathlib

/-!
Shallow embedding of `src/app.py` (a small FastAPI service reshaping GitHub
statistics payloads).  Machine integers are modelled as `Nat`/`Int`; Python
dicts (which preserve insertion order and overwrite on repeated keys) are
modelled as association lists with an update-or-append operation; epoch
timestamps are modelled as non-negative (`Nat`) seconds, which covers the
upstream domain (GitHub week-start timestamps).  Decimal digits are modelled
as ASCII digits.
-/

namespace MetricsApp

/-! ### Characters and decimal strings -/

/-- ASCII decimal digit test (`\d` restricted to ASCII, as produced by the
    formatting code below). -/
def isAsciiDigit (c : Char) : Bool := 48 ≤ c.toNat && c.toNat ≤ 57

/-- Numeric value of an ASCII digit character. -/
def digitVal (c : Char) : Nat := c.toNat - 48

/-- The ASCII digit character for a value `k ≤ 9`. -/
def natDigit : Nat → Char
  | 0 => '0' | 1 => '1' | 2 => '2' | 3 => '3' | 4 => '4'
  | 5 => '5' | 6 => '6' | 7 => '7' | 8 => '8' | 9 => '9'
  | _ => '?'

/-- Big-endian decimal digits of `n`, with explicit fuel so that the kernel
    can evaluate it (`natCharsAux n n` is enough fuel). -/
def natCharsAux : Nat → Nat → List Char
  | 0, _ => []
  | fuel + 1, n => if n = 0 then [] else natCharsAux fuel (n / 10) ++ [natDigit (n % 10)]

/-- Decimal representation of a natural number, as Python's `str(n)` /
    `f-string` formatting produces it (no padding, no sign). -/
def natChars (n : Nat) : List Char := if n = 0 then ['0'] else natCharsAux n n

/-- Decimal value of a digit string (used to model Python's `int(s)` on the
    canonical digit strings this program produces). -/
def parseNatChars (cs : List Char) : Nat := cs.foldl (fun a c => 10 * a + digitVal c) 0

/-- Zero-pad the decimal representation of `n` to width `w`, as Python's
    `%02d` / `%Y` / `%m` / `%d` formatting does. -/
def padZeros (w n : Nat) : List Char := List.replicate (w - (natChars n).length) '0' ++ natChars n

/-! ### Civil (proleptic Gregorian) calendar from epoch days

`datetime.utcfromtimestamp(ts)` interprets `ts` as seconds since
1970-01-01T00:00:00 UTC in the proleptic Gregorian calendar.  `civilFromDays`
converts a day count since 1970-01-01 to a `(year, month, day)` triple
(Howard Hinnant's `civil_from_days`, restricted to non-negative day counts).
-/

/-- Gregorian `(year, month, day)` of the day `days` after 1970-01-01. -/
def civilFromDays (days : Nat) : Nat × Nat × Nat :=
  let z := days + 719468
  let era := z / 146097
  let doe := z % 146097
  let yoe := (doe - doe / 1460 + doe / 36524 - doe / 146096) / 365
  let y := yoe + era * 400
  let doy := doe - (365 * yoe + yoe / 4 - yoe / 100)
  let mp := (5 * doy + 2) / 153
  let d := doy - (153 * mp + 2) / 5 + 1
  if mp < 10 then (y, mp + 3, d) else (y + 1, mp - 9, d)

/-- `strftime('%Y-%m-%d')` on a date triple: the year zero-padded to four
    digits, month and day to two.  (For years below 1000 the `%Y` padding is
    platform-dependent in CPython; all dates this service produces have
    four-digit years, where the platforms agree.) -/
def strftimeYMD (y m d : Nat) : String :=
  ⟨padZeros 4 y ++ '-' :: padZeros 2 m ++ '-' :: padZeros 2 d⟩

/-- `datetime.utcfromtimestamp(ts).strftime('%Y-%m-%d')` for an epoch-seconds
    timestamp `ts`. -/
def utcYmdStr (ts : Nat) : String :=
  strftimeYMD (civilFromDays (ts / 86400)).1 (civilFromDays (ts / 86400)).2.1
    (civilFromDays (ts / 86400)).2.2

/-! ### `datetime.strptime` for the five formats tried by `format_date`

Python's `strptime` compiles a format into a regex: `%Y` matches exactly four
digits, `%m` matches `1[0-2]|0[1-9]|[1-9]` and `%d` matches
`3[01]|[12]\d|0[1-9]|[1-9]` (alternatives tried in that order, with
backtracking), literal characters match themselves, and the whole string must
be consumed.  A successful match then constructs `datetime(year, month, day)`
(defaults 1900-01-01), which raises `ValueError` — caught by `format_date` —
when the date is invalid (year outside 1..9999 or day out of range for the
month).
-/

/-- One item of a `strptime` format: a year / month / day field or a literal
    character. -/
inductive FmtItem
  | Y | M | D
  | lit (c : Char)

/-- Candidate matches of `%Y` (exactly four digits) at the head of the input:
    `(value, rest)` pairs in regex trial order. -/
def candsY : List Char → List (Nat × List Char)
  | a :: b :: c :: d :: rest =>
    if isAsciiDigit a && isAsciiDigit b && isAsciiDigit c && isAsciiDigit d then
      [(1000 * digitVal a + 100 * digitVal b + 10 * digitVal c + digitVal d, rest)]
    else []
  | _ => []

/-- Candidate matches of `%m` (`1[0-2]|0[1-9]|[1-9]`) at the head of the
    input, in regex trial order. -/
def candsM : List Char → List (Nat × List Char)
  | [] => []
  | a :: rest =>
    (match rest with
     | [] => []
     | b :: rest2 =>
       if a == '1' && isAsciiDigit b && digitVal b ≤ 2 then [(10 + digitVal b, rest2)]
       else if a == '0' && isAsciiDigit b && 1 ≤ digitVal b then [(digitVal b, rest2)]
       else []) ++
    (if isAsciiDigit a && 1 ≤ digitVal a then [(digitVal a, rest)] else [])

/-- Candidate matches of `%d` (`3[01]|[12]\d|0[1-9]|[1-9]`) at the head of
    the input, in regex trial order. -/
def candsD : List Char → List (Nat × List Char)
  | [] => []
  | a :: rest =>
    (match rest with
     | [] => []
     | b :: rest2 =>
       if a == '3' && (b == '0' || b == '1') then [(30 + digitVal b, rest2)]
       else if (a == '1' || a == '2') && isAsciiDigit b then
         [(10 * digitVal a + digitVal b, rest2)]
       else if a == '0' && isAsciiDigit b && 1 ≤ digitVal b then [(digitVal b, rest2)]
       else []) ++
    (if isAsciiDigit a && 1 ≤ digitVal a then [(digitVal a, rest)] else [])

/-- All full matches of a format against the input, by backtracking in regex
    trial order; the state is the `(year, month, day)` triple assembled so
    far.  The head of the result, if any, is the match Python's regex engine
    commits to. -/
def runFmt : List FmtItem → Nat × Nat × Nat → List Char → List (Nat × Nat × Nat)
  | [], st, cs => if cs.isEmpty then [st] else []
  | .Y :: items, st, cs => (candsY cs).flatMap (fun p => runFmt items (p.1, st.2.1, st.2.2) p.2)
  | .M :: items, st, cs => (candsM cs).flatMap (fun p => runFmt items (st.1, p.1, st.2.2) p.2)
  | .D :: items, st, cs => (candsD cs).flatMap (fun p => runFmt items (st.1, st.2.1, p.1) p.2)
  | .lit c :: items, st, cs =>
    match cs with
    | [] => []
    | c2 :: rest => if c2 == c then runFmt items st rest else []

/-- Whether `y` is a leap year (proleptic Gregorian, as `datetime` uses). -/
def isLeap (y : Nat) : Bool := (y % 4 == 0 && y % 100 != 0) || y % 400 == 0

/-- Number of days in month `m` of year `y`. -/
def daysInMonth (y m : Nat) : Nat :=
  if m = 2 then (if isLeap y then 29 else 28)
  else if m = 4 ∨ m = 6 ∨ m = 9 ∨ m = 11 then 30
  else 31

/-- The checks performed by the `datetime(year, month, day)` constructor
    (`MINYEAR = 1`, `MAXYEAR = 9999`). -/
def isValidYMD (y m d : Nat) : Bool :=
  1 ≤ y && y ≤ 9999 && 1 ≤ m && m ≤ 12 && 1 ≤ d && d ≤ daysInMonth y m

/-- `datetime.strptime(s, fmt)` restricted to the date triple: the first
    full regex match, validated by the `datetime` constructor.  `none` models
    the `ValueError` caught by `format_date`. -/
def tryFmt (fmt : List FmtItem) (s : String) : Option (Nat × Nat × Nat) :=
  match (runFmt fmt (1900, 1, 1) s.toList).head? with
  | some (y, m, d) => if isValidYMD y m d then some (y, m, d) else none
  | none => none

/-- `'%Y-%m-%d'` -/
def fmtYMDdash : List FmtItem := [.Y, .lit '-', .M, .lit '-', .D]

/-- `'%Y-%m'` -/
def fmtYMdash : List FmtItem := [.Y, .lit '-', .M]

/-- `'%Y/%m/%d'` -/
def fmtYMDslash : List FmtItem := [.Y, .lit '/', .M, .lit '/', .D]

/-- `'%d/%m/%Y'` -/
def fmtDMYslash : List FmtItem := [.D, .lit '/', .M, .lit '/', .Y]

/-- `'%m/%d/%Y'` -/
def fmtMDYslash : List FmtItem := [.M, .lit '/', .D, .lit '/', .Y]

/-- The format list tried, in order, by `format_date`'s string branch. -/
def pyFormats : List (List FmtItem) := [fmtYMDdash, fmtYMdash, fmtYMDslash, fmtDMYslash, fmtMDYslash]

/-- Try the formats in order and keep the first successful parse, as the
    `for fmt in [...]` / `except ValueError: continue` loop does. -/
def tryFmts : List (List FmtItem) → String → Option (Nat × Nat × Nat)
  | [], _ => none
  | f :: fs, s =>
    match tryFmt f s with
    | some r => some r
    | none => tryFmts fs s

/-! ### `format_date` -/

/-- The value given to `format_date`: a `datetime` object (represented by its
    civil date — the code only ever formats the date part), an integer
    epoch-seconds timestamp, a string, or a value of any other type together
    with its `str(...)` representation. -/
inductive DateInput
  | dt (date : Nat × Nat × Nat)
  | ts (n : Nat)
  | str (s : String)
  | other (strRepr : String)

/-- The string branch of `format_date`: try the five formats in order and
    reformat the first successful parse as `%Y-%m-%d`; if none parses,
    return the string unchanged. -/
def formatDateStr (s : String) : String :=
  match tryFmts pyFormats s with
  | some (y, m, d) => strftimeYMD y m d
  | none => s

/-- `format_date` from `src/app.py`.  It never raises: every branch,
    including the fallback, returns a string (modelled by totality). -/
def format_date : DateInput → String
  | .dt date => strftimeYMD date.1 date.2.1 date.2.2
  | .ts n => utcYmdStr n
  | .str s => formatDateStr s
  | .other strRepr => strRepr

/-! ### Python dicts (insertion-ordered, overwrite on repeated keys) -/

/-- `d[k] = v` on a Python dict: overwrite in place if the key is present,
    append otherwise. -/
def dictInsert (d : List (String × Int)) (k : String) (v : Int) : List (String × Int) :=
  if d.any (fun p => p.1 == k) then d.map (fun p => if p.1 == k then (p.1, v) else p)
  else d ++ [(k, v)]

/-- The month-totals accumulation `if k not in d: d[k] = 0` followed by
    `d[k] += v`. -/
def bumpKey (d : List (String × Int)) (k : String) (v : Int) : List (String × Int) :=
  if d.any (fun p => p.1 == k) then d.map (fun p => if p.1 == k then (p.1, p.2 + v) else p)
  else d ++ [(k, v)]

/-- Python's `s.split('-')` on a character list (`"".split('-') == [""]`). -/
def splitOnDash : List Char → List (List Char)
  | [] => [[]]
  | c :: rest =>
    if c == '-' then [] :: splitOnDash rest
    else
      match splitOnDash rest with
      | [] => [[c]]
      | p :: ps => (c :: p) :: ps

/-! ### Commit-activity bucketing (`get_commits`) -/

/-- One element of the GitHub `stats/commit_activity` payload:
    `{'week': epoch seconds, 'total': commits, 'days': [7 counts]}`. -/
structure WeeklyStat where
  week : Nat
  total : Int
  days : List Int

/-- The `f"{date.year}-{date.month:02d}"` month key used by the month
    branch. -/
def monthKeyChars (y m : Nat) : List Char := natChars y ++ '-' :: padZeros 2 m

/-- The UTC calendar `(year, month)` of a week's start timestamp, i.e.
    `date.year, date.month` for `date = datetime.utcfromtimestamp(week)`. -/
def monthOfWeek (it : WeeklyStat) : Nat × Nat :=
  ((civilFromDays (it.week / 86400)).1, (civilFromDays (it.week / 86400)).2.1)

/-- The string key `f"{year}-{month:02d}"` for a `(year, month)` pair. -/
def monthKeyStr (ym : Nat × Nat) : String := ⟨monthKeyChars ym.1 ym.2⟩

/-- The commit-bucketing transform of `get_commits` (the body building
    `commit_frequency` from the parsed stats, for a given `frequency`).
    In the month branch, `year, month = month_key.split('-')` always sees
    exactly two parts for the keys built above (see
    `splitOnDash_monthKeyChars`); on any other shape Python would raise,
    which the surrounding handler turns into the empty mapping. -/
def bucketCommitActivity (stats : List WeeklyStat) (frequency : String) : List (String × Int) :=
  if frequency == "week" then
    stats.foldl (fun cf item => dictInsert cf (format_date (.ts item.week)) item.total) []
  else if frequency == "day" then
    stats.foldl (fun cf item =>
      item.days.enum.foldl (fun cf2 p =>
        if p.2 > 0 then
          dictInsert cf2 (format_date (.dt (civilFromDays (item.week / 86400 + p.1)))) p.2
        else cf2) cf) []
  else if frequency == "month" then
    let month_totals := stats.foldl (fun mt item =>
      bumpKey mt (monthKeyStr (monthOfWeek item)) item.total) []
    month_totals.foldl (fun cf kv =>
      match splitOnDash kv.1.toList with
      | [ys, ms] => dictInsert cf (format_date (.dt (parseNatChars ys, parseNatChars ms, 1))) kv.2
      | _ => cf) []
  else []

/-- Outcome of the upstream call as the handler sees it: a transport or
    JSON-parse exception, or a response with a status code and (when it is
    read) a parsed body. -/
inductive Upstream (α : Type)
  | exn
  | resp (status : Nat) (body : α)

/-- The JSON value returned by the `/api/commits` handler. -/
inductive CommitsResponse
  | message (s : String)
  | commit_frequency (d : List (String × Int))
deriving DecidableEq

/-- The `/api/commits` handler after URL parsing: 202 yields the
    "still generating" message, any other non-200 status, an empty payload,
    a transport or parse exception all yield the empty mapping; otherwise
    the stats are bucketed at the requested frequency. -/
def get_commits (u : Upstream (List WeeklyStat)) (frequency : String) : CommitsResponse :=
  match u with
  | .exn => .commit_frequency []
  | .resp status stats =>
    if status == 202 then
      .message "GitHub is generating the statistics. Please try again in a moment."
    else if status != 200 then .commit_frequency []
    else if stats.isEmpty then .commit_frequency []
    else .commit_frequency (bucketCommitActivity stats frequency)

/-! ### Pull-request tally (`get_pull_requests`) -/

/-- A pull-request record, reduced to the one field the tally reads:
    `pr.get("merged_at")` is `none` when the key is missing or null. -/
structure PullRecord where
  merged_at : Option String

/-- Python truthiness of `pr.get("merged_at")`: `None` and the empty string
    are falsy, any other string is truthy. -/
def truthyMergedAt (v : Option String) : Bool :=
  match v with
  | none => false
  | some s => !s.isEmpty

/-- The tally computed by `get_pull_requests`, as the triple
    `(open, closed_unmerged, merged)` of the response dict. -/
def pullRequestCounts (openPrs closedPrs : List PullRecord) : Nat × Nat × Nat :=
  let merged := (closedPrs.filter (fun pr => truthyMergedAt pr.merged_at)).length
  (openPrs.length, closedPrs.length - merged, merged)

/-- The `/api/pull_requests` handler: any exception while parsing the URL or
    fetching the PR lists yields the all-zero tally. -/
def get_pull_requests (u : Option (List PullRecord × List PullRecord)) : Nat × Nat × Nat :=
  match u with
  | none => (0, 0, 0)
  | some (openPrs, closedPrs) => pullRequestCounts openPrs closedPrs

/-! ### Code-frequency reshaper (`get_code_frequency`) -/

/-- One row of the `/api/code_frequency` response:
    `{"Date": ..., "Code Additions": ..., "Code Deletions": ...}`. -/
structure CodeFreqRow where
  date : String
  additions : Int
  deletions : Int
deriving DecidableEq

/-- The reshaping loop of `get_code_frequency` over the parsed
    `[epochWeekStart, additions, deletions]` triples. -/
def codeFreqRows (stats : List (Nat × Int × Int)) : List CodeFreqRow :=
  stats.foldl (fun result w => result ++ [⟨utcYmdStr w.1, w.2.1, w.2.2⟩]) []

/-- The JSON value returned by the `/api/code_frequency` handler. -/
inductive CodeFreqResponse
  | message (s : String)
  | rows (r : List CodeFreqRow)
deriving DecidableEq

/-- The `/api/code_frequency` handler after URL parsing. -/
def get_code_frequency (u : Upstream (List (Nat × Int × Int))) : CodeFreqResponse :=
  match u with
  | .exn => .rows []
  | .resp status stats =>
    if status == 202 then
      .message "GitHub is generating the statistics. Please try again in a moment."
    else if status != 200 then .rows []
    else if stats.isEmpty then .rows []
    else .rows (codeFreqRows stats)

/-! ### Lemmas: decimal strings -/

theorem digitVal_natDigit {k : Nat} (hk : k < 10) : digitVal (natDigit k) = k := by
  interval_cases k <;> rfl

theorem isAsciiDigit_natDigit {k : Nat} (hk : k < 10) : isAsciiDigit (natDigit k) = true := by
  interval_cases k <;> rfl

theorem natDigit_ne_dash {k : Nat} (hk : k < 10) : natDigit k ≠ '-' := by
  interval_cases k <;> decide

theorem parseNatChars_append_singleton (cs : List Char) (c : Char) :
    parseNatChars (cs ++ [c]) = 10 * parseNatChars cs + digitVal c := by
  simp [parseNatChars, List.foldl_append]

theorem parseNatChars_natCharsAux {fuel n : Nat} (h : n ≤ fuel) :
    parseNatChars (natCharsAux fuel n) = n := by
  induction fuel generalizing n with
  | zero => interval_cases n; rfl
  | succ fuel ih =>
    by_cases hn : n = 0
    · subst hn; rfl
    · rw [natCharsAux, if_neg hn, parseNatChars_append_singleton, ih (by omega),
        digitVal_natDigit (by omega)]
      omega

theorem parseNatChars_natChars (n : Nat) : parseNatChars (natChars n) = n := by
  by_cases hn : n = 0
  · subst hn; rfl
  · rw [natChars, if_neg hn, parseNatChars_natCharsAux (le_refl n)]

theorem mem_natCharsAux {fuel n : Nat} {c : Char} (h : c ∈ natCharsAux fuel n) :
    ∃ k, k < 10 ∧ c = natDigit k := by
  induction fuel generalizing n with
  | zero => simp [natCharsAux] at h
  | succ fuel ih =>
    rw [natCharsAux] at h
    by_cases hn : n = 0
    · simp [hn] at h
    · rw [if_neg hn] at h
      rcases List.mem_append.1 h with h1 | h2
      · exact ih h1
      · exact ⟨n % 10, by omega, by simpa using h2⟩

theorem mem_natChars {n : Nat} {c : Char} (h : c ∈ natChars n) :
    ∃ k, k < 10 ∧ c = natDigit k := by
  by_cases hn : n = 0
  · subst hn; simp [natChars] at h; exact ⟨0, by omega, h⟩
  · rw [natChars, if_neg hn] at h; exact mem_natCharsAux h

theorem mem_padZeros_ne_dash {w n : Nat} {c : Char} (h : c ∈ padZeros w n) : c ≠ '-' := by
  rcases List.mem_append.1 h with h1 | h2
  · rw [List.eq_of_mem_replicate h1]; decide
  · obtain ⟨k, hk, rfl⟩ := mem_natChars h2
    exact natDigit_ne_dash hk

theorem mem_natChars_ne_dash {n : Nat} {c : Char} (h : c ∈ natChars n) : c ≠ '-' := by
  obtain ⟨k, hk, rfl⟩ := mem_natChars h
  exact natDigit_ne_dash hk

theorem parseNatChars_replicate_zero (k : Nat) (cs : List Char) :
    parseNatChars (List.replicate k '0' ++ cs) = parseNatChars cs := by
  induction k with
  | zero => rfl
  | succ k ih => simpa [List.replicate_succ, parseNatChars] using ih

theorem parseNatChars_padZeros (w n : Nat) : parseNatChars (padZeros w n) = n := by
  rw [padZeros, parseNatChars_replicate_zero, parseNatChars_natChars]

theorem natCharsAux_length_le {fuel n k : Nat} (h : n < 10 ^ k) :
    (natCharsAux fuel n).length ≤ k := by
  induction fuel generalizing n k with
  | zero => simp [natCharsAux]
  | succ fuel ih =>
    by_cases hn : n = 0
    · simp [natCharsAux, hn]
    · rw [natCharsAux, if_neg hn, List.length_append]
      have hk : k ≠ 0 := by
        rintro rfl; simp at h; omega
      have hdiv : n / 10 < 10 ^ (k - 1) := by
        rw [Nat.div_lt_iff_lt_mul (by norm_num)]
        calc n < 10 ^ k := h
        _ = 10 ^ (k - 1) * 10 := by
          rw [← pow_succ]; congr 1; omega
      have := ih hdiv
      simp only [List.length_cons, List.length_nil]
      omega

theorem natChars_length_le {n k : Nat} (h : n < 10 ^ k) (hk : 0 < k) :
    (natChars n).length ≤ k := by
  by_cases hn : n = 0
  · subst hn; simpa [natChars] using hk
  · rw [natChars, if_neg hn]; exact natCharsAux_length_le h

theorem natChars_ne_nil (n : Nat) : natChars n ≠ [] := by
  by_cases hn : n = 0
  · subst hn; decide
  · rw [natChars, if_neg hn]
    match hfuel : n, hn with
    | fuel + 1, _ =>
      rw [natCharsAux, if_neg (by omega)]
      simp

theorem padZeros_length {w n : Nat} (h : n < 10 ^ w) (hw : 0 < w) :
    (padZeros w n).length = w := by
  have := natChars_length_le h hw
  simp only [padZeros, List.length_append, List.length_replicate]
  omega

theorem padZeros_all_digits {w n : Nat} {c : Char} (h : c ∈ padZeros w n) :
    isAsciiDigit c = true := by
  rcases List.mem_append.1 h with h1 | h2
  · rw [List.eq_of_mem_replicate h1]; rfl
  · obtain ⟨k, hk, rfl⟩ := mem_natChars h2
    exact isAsciiDigit_natDigit hk

/-! ### Lemmas: `splitOnDash` and key injectivity -/

theorem splitOnDash_ne_nil (cs : List Char) : splitOnDash cs ≠ [] := by
  match cs with
  | [] => simp [splitOnDash]
  | c :: rest =>
    rw [splitOnDash]
    by_cases hc : c == '-'
    · simp [hc]
    · simp only [hc, Bool.false_eq_true, if_false]
      match h : splitOnDash rest with
      | [] => simp
      | p :: ps => simp

theorem splitOnDash_append_nodash {a cs : List Char} (ha : ∀ c ∈ a, c ≠ '-')
    {p : List Char} {ps : List (List Char)} (h : splitOnDash cs = p :: ps) :
    splitOnDash (a ++ cs) = (a ++ p) :: ps := by
  induction a with
  | nil => simpa using h
  | cons c a ih =>
    have hc : c ≠ '-' := ha c (by simp)
    have ihh := ih (fun x hx => ha x (by simp [hx]))
    rw [List.cons_append, splitOnDash, if_neg (by simpa using hc), ihh]
    simp

theorem splitOnDash_nodash {a : List Char} (ha : ∀ c ∈ a, c ≠ '-') :
    splitOnDash a = [a] := by
  have : splitOnDash (a ++ ([] : List Char)) = (a ++ []) :: [] :=
    splitOnDash_append_nodash ha (by rfl)
  simpa using this

theorem splitOnDash_monthKeyChars (y m : Nat) :
    splitOnDash (monthKeyChars y m) = [natChars y, padZeros 2 m] := by
  rw [monthKeyChars]
  have h2 : splitOnDash ('-' :: padZeros 2 m) = [] :: [padZeros 2 m] := by
    rw [splitOnDash, if_pos (by rfl), splitOnDash_nodash (fun c hc => mem_padZeros_ne_dash hc)]
  simpa using splitOnDash_append_nodash (fun c hc => mem_natChars_ne_dash hc) h2

theorem toList_strftimeYMD (y m d : Nat) :
    (strftimeYMD y m d).toList = padZeros 4 y ++ '-' :: padZeros 2 m ++ '-' :: padZeros 2 d := rfl

theorem splitOnDash_strftimeYMD (y m d : Nat) :
    splitOnDash (strftimeYMD y m d).toList = [padZeros 4 y, padZeros 2 m, padZeros 2 d] := by
  rw [toList_strftimeYMD]
  have h3 : splitOnDash ('-' :: padZeros 2 d) = [] :: [padZeros 2 d] := by
    rw [splitOnDash, if_pos (by rfl), splitOnDash_nodash (fun c hc => mem_padZeros_ne_dash hc)]
  have h2 : splitOnDash (padZeros 2 m ++ '-' :: padZeros 2 d) = padZeros 2 m :: [padZeros 2 d] := by
    simpa using splitOnDash_append_nodash (fun c hc => mem_padZeros_ne_dash hc) h3
  have h1 : splitOnDash ('-' :: (padZeros 2 m ++ '-' :: padZeros 2 d))
      = [] :: padZeros 2 m :: [padZeros 2 d] := by
    rw [splitOnDash, if_pos (by rfl), h2]
  simpa using splitOnDash_append_nodash (fun c hc => mem_padZeros_ne_dash hc) h1

theorem strftimeYMD_inj {y1 m1 d1 y2 m2 d2 : Nat}
    (h : strftimeYMD y1 m1 d1 = strftimeYMD y2 m2 d2) : y1 = y2 ∧ m1 = m2 ∧ d1 = d2 := by
  have hl : (strftimeYMD y1 m1 d1).toList = (strftimeYMD y2 m2 d2).toList := by rw [h]
  have hs : ([padZeros 4 y1, padZeros 2 m1, padZeros 2 d1] : List (List Char))
      = [padZeros 4 y2, padZeros 2 m2, padZeros 2 d2] := by
    rw [← splitOnDash_strftimeYMD, ← splitOnDash_strftimeYMD, hl]
  simp only [List.cons.injEq, and_true] at hs
  obtain ⟨hy, hm, hd⟩ := hs
  refine ⟨?_, ?_, ?_⟩
  · rw [← parseNatChars_padZeros 4 y1, ← parseNatChars_padZeros 4 y2, hy]
  · rw [← parseNatChars_padZeros 2 m1, ← parseNatChars_padZeros 2 m2, hm]
  · rw [← parseNatChars_padZeros 2 d1, ← parseNatChars_padZeros 2 d2, hd]

theorem monthKeyStr_inj {y1 m1 y2 m2 : Nat}
    (h : (⟨monthKeyChars y1 m1⟩ : String) = ⟨monthKeyChars y2 m2⟩) : y1 = y2 ∧ m1 = m2 := by
  have hl : monthKeyChars y1 m1 = monthKeyChars y2 m2 := by
    have := congrArg String.data h; simpa using this
  have hs : ([natChars y1, padZeros 2 m1] : List (List Char)) = [natChars y2, padZeros 2 m2] := by
    rw [← splitOnDash_monthKeyChars, ← splitOnDash_monthKeyChars, hl]
  simp only [List.cons.injEq, and_true] at hs
  obtain ⟨hy, hm⟩ := hs
  constructor
  · rw [← parseNatChars_natChars y1, ← parseNatChars_natChars y2, hy]
  · rw [← parseNatChars_padZeros 2 m1, ← parseNatChars_padZeros 2 m2, hm]

/-! ### Lemmas: dict folds -/

/-- Insertion-ordered deduplication (first occurrence kept), the key order of
    a Python dict built by repeated writes. -/
def firstDedup {α : Type} [DecidableEq α] (l : List α) : List α :=
  l.foldl (fun acc a => if a ∈ acc then acc else acc ++ [a]) []

theorem firstDedup_concat {α : Type} [DecidableEq α] (l : List α) (x : α) :
    firstDedup (l ++ [x])
      = if x ∈ firstDedup l then firstDedup l else firstDedup l ++ [x] := by
  simp [firstDedup, List.foldl_append]

theorem mem_firstDedup {α : Type} [DecidableEq α] {l : List α} {a : α} :
    a ∈ firstDedup l ↔ a ∈ l := by
  induction l using List.reverseRecOn with
  | nil => simp [firstDedup]
  | append_singleton l x ih =>
    rw [firstDedup_concat]
    by_cases hx : x ∈ firstDedup l
    · rw [if_pos hx]
      simp only [List.mem_append, List.mem_singleton, ih]
      constructor
      · exact Or.inl
      · rintro (h | rfl)
        · exact h
        · exact ih.1 hx
    · rw [if_neg hx]
      simp [ih]

theorem firstDedup_nodup {α : Type} [DecidableEq α] (l : List α) : (firstDedup l).Nodup := by
  induction l using List.reverseRecOn with
  | nil => simp [firstDedup]
  | append_singleton l x ih =>
    rw [firstDedup_concat]
    by_cases hx : x ∈ firstDedup l
    · rwa [if_pos hx]
    · rw [if_neg hx]
      simpa [List.nodup_append] using ⟨ih, fun h => hx h⟩

theorem dictInsert_of_not_mem {d : List (String × Int)} {k : String} {v : Int}
    (h : ∀ p ∈ d, p.1 ≠ k) : dictInsert d k v = d ++ [(k, v)] := by
  rw [dictInsert, if_neg]
  simp only [List.any_eq_true, not_exists, not_and]
  intro p hp
  simpa using h p hp

theorem mem_dictInsert {d : List (String × Int)} {k : String} {v : Int}
    {e : String × Int} (h : e ∈ dictInsert d k v) : e ∈ d ∨ e.2 = v := by
  rw [dictInsert] at h
  by_cases hd : d.any (fun p => p.1 == k)
  · rw [if_pos hd] at h
    obtain ⟨p, hp, he⟩ := List.mem_map.1 h
    by_cases hpk : p.1 == k
    · right; rw [if_pos hpk] at he; rw [← he]
    · left; rw [if_neg hpk] at he; rwa [← he]
  · rw [if_neg hd] at h
    rcases List.mem_append.1 h with h1 | h2
    · exact Or.inl h1
    · right; simp only [List.mem_singleton] at h2; rw [h2]

theorem foldl_dictInsert_eq_map {α : Type} (key : α → String) (val : α → Int)
    (l : List α) (h : (l.map key).Nodup) :
    l.foldl (fun d a => dictInsert d (key a) (val a)) [] = l.map (fun a => (key a, val a)) := by
  induction l using List.reverseRecOn with
  | nil => rfl
  | append_singleton l x ih =>
    rw [List.map_append, List.nodup_append] at h
    obtain ⟨h1, _, h3⟩ := h
    rw [List.foldl_append, ih h1, List.foldl_cons, List.foldl_nil, List.map_append]
    apply dictInsert_of_not_mem
    intro p hp
    obtain ⟨a, ha, rfl⟩ := List.mem_map.1 hp
    intro hk
    exact h3 (List.mem_map_of_mem key ha) (by simpa using hk)

theorem foldl_cond_filter {α β : Type} (l : List α) (p : α → Prop) [DecidablePred p]
    (f : β → α → β) (a : β) :
    l.foldl (fun acc x => if p x then f acc x else acc) a
      = (l.filter (fun x => decide (p x))).foldl f a := by
  induction l generalizing a with
  | nil => rfl
  | cons x l ih =>
    by_cases hx : p x
    · rw [List.foldl_cons, if_pos hx, List.filter_cons_of_pos (by simpa using hx),
        List.foldl_cons, ih]
    · rw [List.foldl_cons, if_neg hx, List.filter_cons_of_neg (by simpa using hx), ih]

theorem foldl_over_flatMap {α β γ : Type} (l : List α) (g : α → List β)
    (f : γ → β → γ) (a : γ) :
    (l.flatMap g).foldl f a = l.foldl (fun acc x => (g x).foldl f acc) a := by
  induction l generalizing a with
  | nil => rfl
  | cons x l ih => rw [List.flatMap_cons, List.foldl_append, List.foldl_cons, ih]

theorem foldl_dictInsert_snd_pos (l : List (String × Int)) (init : List (String × Int))
    (hinit : ∀ e ∈ init, 0 < e.2) (hl : ∀ e ∈ l, 0 < e.2) :
    ∀ e ∈ l.foldl (fun d p => dictInsert d p.1 p.2) init, 0 < e.2 := by
  induction l generalizing init with
  | nil => exact hinit
  | cons x l ih =>
    rw [List.foldl_cons]
    refine ih _ ?_ (fun e he => hl e (by simp [he]))
    intro e he
    rcases mem_dictInsert he with h1 | h2
    · exact hinit e h1
    · rw [h2]; exact hl x (by simp)

/-! ### Month bucketing: specification-side description and characterization -/

/-- Total commits of the weeks falling in a given `(year, month)` group. -/
def monthGroupSum (stats : List WeeklyStat) (ym : Nat × Nat) : Int :=
  ((stats.filter (fun it => monthOfWeek it = ym)).map WeeklyStat.total).sum

/-- The claimed month-bucketed output: one entry per `(year, month)` group
    present in the input (in first-appearance order), keyed by the normalized
    first day of that month, valued by the group's summed `total`. -/
def monthSpec (stats : List WeeklyStat) : List (String × Int) :=
  (firstDedup (stats.map monthOfWeek)).map
    (fun ym => (strftimeYMD ym.1 ym.2 1, monthGroupSum stats ym))

theorem monthKeyStr_injective : Function.Injective monthKeyStr := by
  rintro ⟨y1, m1⟩ ⟨y2, m2⟩ h
  obtain ⟨hy, hm⟩ := monthKeyStr_inj h
  rw [Prod.mk.injEq]
  exact ⟨hy, hm⟩

theorem monthGroupSum_concat (stats : List WeeklyStat) (x : WeeklyStat) (ym : Nat × Nat) :
    monthGroupSum (stats ++ [x]) ym
      = monthGroupSum stats ym + (if monthOfWeek x = ym then x.total else 0) := by
  rw [monthGroupSum, List.filter_append, List.map_append, List.sum_append, monthGroupSum]
  congr 1
  by_cases hx : monthOfWeek x = ym
  · simp [hx]
  · simp [hx]

theorem foldl_bumpKey_month (stats : List WeeklyStat) :
    stats.foldl (fun mt it => bumpKey mt (monthKeyStr (monthOfWeek it)) it.total) []
      = (firstDedup (stats.map monthOfWeek)).map
          (fun ym => (monthKeyStr ym, monthGroupSum stats ym)) := by
  induction stats using List.reverseRecOn with
  | nil => rfl
  | append_singleton stats x ih =>
    rw [List.foldl_append, List.foldl_cons, List.foldl_nil, ih, List.map_append,
      List.map_singleton, firstDedup_concat]
    by_cases hmem : monthOfWeek x ∈ firstDedup (stats.map monthOfWeek)
    · rw [if_pos hmem, bumpKey, if_pos]
      · rw [List.map_map]
        apply List.map_congr_left
        intro ym hym
        by_cases hx : monthOfWeek x = ym
        · subst hx
          rw [Function.comp_apply, monthGroupSum_concat, if_pos rfl,
            if_pos (beq_self_eq_true (monthKeyStr (monthOfWeek x)))]
        · have hk : (monthKeyStr ym == monthKeyStr (monthOfWeek x)) = false := by
            simp only [beq_eq_false_iff_ne, ne_eq]
            intro hkeq
            exact hx (monthKeyStr_injective hkeq).symm
          simp only [Function.comp_apply, hk, Bool.false_eq_true, if_false,
            monthGroupSum_concat, hx, if_false, add_zero]
      · rw [List.any_eq_true]
        refine ⟨(monthKeyStr (monthOfWeek x), monthGroupSum stats (monthOfWeek x)), ?_, by simp⟩
        exact List.mem_map_of_mem _ hmem
    · rw [if_neg hmem, bumpKey, if_neg]
      · rw [List.map_append]
        congr 1
        · apply List.map_congr_left
          intro ym hym
          have hx : monthOfWeek x ≠ ym := by
            rintro rfl
            exact hmem hym
          rw [monthGroupSum_concat, if_neg hx, add_zero]
        · simp only [List.map_singleton, List.cons.injEq, and_true, Prod.mk.injEq, true_and]
          rw [monthGroupSum_concat, if_pos rfl]
          have hz : monthGroupSum stats (monthOfWeek x) = 0 := by
            rw [monthGroupSum, List.filter_eq_nil_iff.2, List.map_nil, List.sum_nil]
            intro it hit
            simp only [decide_eq_true_eq]
            intro hin
            exact hmem (mem_firstDedup.2 (hin ▸ List.mem_map_of_mem monthOfWeek hit))
          rw [hz, zero_add]
      · rw [Bool.not_eq_true, List.any_eq_false]
        rintro p hp
        obtain ⟨ym, hym, rfl⟩ := List.mem_map.1 hp
        intro hkeq
        exact hmem ((monthKeyStr_injective (by simpa using hkeq)) ▸ hym)

theorem bucket_month_def (stats : List WeeklyStat) :
    bucketCommitActivity stats "month"
      = (stats.foldl (fun mt it => bumpKey mt (monthKeyStr (monthOfWeek it)) it.total) []).foldl
          (fun cf kv =>
            match splitOnDash kv.1.toList with
            | [ys, ms] =>
              dictInsert cf (format_date (.dt (parseNatChars ys, parseNatChars ms, 1))) kv.2
            | _ => cf) [] := rfl

theorem convert_month_entry (cf : List (String × Int)) (ym : Nat × Nat) (v : Int) :
    (match splitOnDash (monthKeyStr ym).toList with
     | [ys, ms] => dictInsert cf (format_date (.dt (parseNatChars ys, parseNatChars ms, 1))) v
     | _ => cf)
      = dictInsert cf (strftimeYMD ym.1 ym.2 1) v := by
  rw [show (monthKeyStr ym).toList = monthKeyChars ym.1 ym.2 from rfl, splitOnDash_monthKeyChars]
  show dictInsert cf
      (format_date (.dt (parseNatChars (natChars ym.1), parseNatChars (padZeros 2 ym.2), 1))) v = _
  rw [parseNatChars_natChars, parseNatChars_padZeros]
  rfl

theorem strftimeFirstDay_injective :
    Function.Injective (fun ym : Nat × Nat => strftimeYMD ym.1 ym.2 1) := by
  rintro ⟨y1, m1⟩ ⟨y2, m2⟩ h
  obtain ⟨hy, hm, _⟩ := strftimeYMD_inj h
  rw [Prod.mk.injEq]
  exact ⟨hy, hm⟩

theorem bucket_month_eq_monthSpec (stats : List WeeklyStat) :
    bucketCommitActivity stats "month" = monthSpec stats := by
  rw [bucket_month_def, foldl_bumpKey_month, List.foldl_map]
  have h1 := List.foldl_ext
    (l := firstDedup (stats.map monthOfWeek))
    (fun cf ym =>
      match splitOnDash ((monthKeyStr ym, monthGroupSum stats ym).1).toList with
      | [ys, ms] =>
        dictInsert cf (format_date (.dt (parseNatChars ys, parseNatChars ms, 1)))
          (monthKeyStr ym, monthGroupSum stats ym).2
      | _ => cf)
    (fun cf ym => dictInsert cf (strftimeYMD ym.1 ym.2 1) (monthGroupSum stats ym))
    []
    (fun cf ym _ => convert_month_entry cf ym (monthGroupSum stats ym))
  rw [h1, foldl_dictInsert_eq_map (fun ym : Nat × Nat => strftimeYMD ym.1 ym.2 1)
    (fun ym => monthGroupSum stats ym) _
    (((firstDedup_nodup (stats.map monthOfWeek))).map strftimeFirstDay_injective)]
  rfl

/-! ### Week and day bucketing -/

theorem bucket_week_def (stats : List WeeklyStat) :
    bucketCommitActivity stats "week"
      = stats.foldl (fun cf item => dictInsert cf (format_date (.ts item.week)) item.total) [] :=
  rfl

theorem bucket_week_eq_map (stats : List WeeklyStat)
    (h : (stats.map (fun it => format_date (.ts it.week))).Nodup) :
    bucketCommitActivity stats "week"
      = stats.map (fun it => (format_date (.ts it.week), it.total)) := by
  have hh := foldl_dictInsert_eq_map (fun it : WeeklyStat => format_date (.ts it.week))
    (fun it => it.total) stats h
  rw [bucket_week_def]
  exact hh

/-- The `(key, value)` pairs one week emits in the day branch: one pair per
    strictly positive daily count, keyed by the normalized date
    `weekStart + index` days. -/
def dayPairs (it : WeeklyStat) : List (String × Int) :=
  (it.days.enum.filter (fun p => p.2 > 0)).map
    (fun p => (format_date (.dt (civilFromDays (it.week / 86400 + p.1))), p.2))

/-- All day-branch entries of the input, in emission order. -/
def dayEntries (stats : List WeeklyStat) : List (String × Int) := stats.flatMap dayPairs

theorem bucket_day_def (stats : List WeeklyStat) :
    bucketCommitActivity stats "day"
      = stats.foldl (fun cf item =>
          item.days.enum.foldl (fun cf2 p =>
            if p.2 > 0 then
              dictInsert cf2 (format_date (.dt (civilFromDays (item.week / 86400 + p.1)))) p.2
            else cf2) cf) [] := rfl

theorem bucket_day_foldl (stats : List WeeklyStat) :
    bucketCommitActivity stats "day"
      = (dayEntries stats).foldl (fun cf e => dictInsert cf e.1 e.2) [] := by
  rw [bucket_day_def, dayEntries, foldl_over_flatMap]
  apply List.foldl_ext
  intro acc item _
  rw [foldl_cond_filter, dayPairs, List.foldl_map]

theorem bucket_day_values_pos (stats : List WeeklyStat) :
    ∀ e ∈ bucketCommitActivity stats "day", 0 < e.2 := by
  rw [bucket_day_foldl]
  apply foldl_dictInsert_snd_pos _ _ (by simp)
  intro e he
  rw [dayEntries] at he
  obtain ⟨it, hit, hpe⟩ := List.mem_flatMap.1 he
  rw [dayPairs] at hpe
  obtain ⟨p, hp, rfl⟩ := List.mem_map.1 hpe
  have := (List.mem_filter.1 hp).2
  simpa using this

theorem bucket_day_eq_entries (stats : List WeeklyStat)
    (h : ((dayEntries stats).map Prod.fst).Nodup) :
    bucketCommitActivity stats "day" = dayEntries stats := by
  rw [bucket_day_foldl]
  have := foldl_dictInsert_eq_map Prod.fst Prod.snd (dayEntries stats) h
  simpa using this

/-! ### Reparsing canonical `%Y-%m-%d` output -/

theorem list_len_four {α : Type} {l : List α} (h : l.length = 4) :
    ∃ a b c d, l = [a, b, c, d] := by
  match l with
  | [a, b, c, d] => exact ⟨a, b, c, d, rfl⟩
  | [] | [_] | [_, _] | [_, _, _] => simp at h
  | _ :: _ :: _ :: _ :: _ :: t => simp at h

theorem candsY_padZeros {y : Nat} (hy : y ≤ 9999) (rest : List Char) :
    candsY (padZeros 4 y ++ rest) = [(y, rest)] := by
  obtain ⟨a, b, c, d, hpe⟩ := list_len_four (padZeros_length (by omega) (by norm_num) :
    (padZeros 4 y).length = 4)
  have ha : isAsciiDigit a = true := padZeros_all_digits (by rw [hpe]; simp)
  have hb : isAsciiDigit b = true := padZeros_all_digits (by rw [hpe]; simp)
  have hc : isAsciiDigit c = true := padZeros_all_digits (by rw [hpe]; simp)
  have hd : isAsciiDigit d = true := padZeros_all_digits (by rw [hpe]; simp)
  have hv : parseNatChars [a, b, c, d] = y := by rw [← hpe, parseNatChars_padZeros]
  have hv2 : 10 * (10 * (10 * digitVal a + digitVal b) + digitVal c) + digitVal d = y := by
    simpa [parseNatChars, List.foldl] using hv
  rw [hpe]
  show candsY (a :: b :: c :: d :: rest) = [(y, rest)]
  rw [candsY, ha, hb, hc, hd]
  simp only [Bool.and_self, if_true, List.cons.injEq, Prod.mk.injEq, and_true]
  omega

theorem daysInMonth_le_31 (y m : Nat) : daysInMonth y m ≤ 31 := by
  rw [daysInMonth]
  split
  · split <;> omega
  · split <;> omega

theorem runFmt_tail_MD (y : Nat) {m d : Nat} (hm1 : 1 ≤ m) (hm2 : m ≤ 12)
    (hd1 : 1 ≤ d) (hd2 : d ≤ 31) :
    runFmt [.lit '-', .M, .lit '-', .D] (y, 1, 1) ('-' :: padZeros 2 m ++ '-' :: padZeros 2 d)
      = [(y, m, d)] := by
  interval_cases m <;> interval_cases d <;> rfl

theorem runFmt_strftime {y m d : Nat} (hy : y ≤ 9999) (hm1 : 1 ≤ m) (hm2 : m ≤ 12)
    (hd1 : 1 ≤ d) (hd2 : d ≤ 31) :
    runFmt fmtYMDdash (1900, 1, 1) (strftimeYMD y m d).toList = [(y, m, d)] := by
  rw [toList_strftimeYMD]
  show (candsY (padZeros 4 y ++ '-' :: padZeros 2 m ++ '-' :: padZeros 2 d)).flatMap
      (fun p => runFmt [.lit '-', .M, .lit '-', .D] (p.1, 1, 1) p.2) = [(y, m, d)]
  rw [List.append_assoc, List.cons_append, candsY_padZeros hy]
  simp only [List.flatMap_cons, List.flatMap_nil, List.append_nil]
  exact runFmt_tail_MD y hm1 hm2 hd1 hd2

theorem tryFmt_strftime {y m d : Nat} (hv : isValidYMD y m d = true) :
    tryFmt fmtYMDdash (strftimeYMD y m d) = some (y, m, d) := by
  have hb : 1 ≤ y ∧ y ≤ 9999 ∧ 1 ≤ m ∧ m ≤ 12 ∧ 1 ≤ d ∧ d ≤ daysInMonth y m := by
    rw [isValidYMD] at hv
    simp only [Bool.and_eq_true, decide_eq_true_eq] at hv
    omega
  have h31 := daysInMonth_le_31 y m
  rw [tryFmt, runFmt_strftime hb.2.1 hb.2.2.1 hb.2.2.2.1 hb.2.2.2.2.1 (by omega)]
  simp only [List.head?_cons]
  rw [if_pos hv]

theorem tryFmt_valid {f : List FmtItem} {s : String} {r : Nat × Nat × Nat}
    (h : tryFmt f s = some r) : isValidYMD r.1 r.2.1 r.2.2 = true := by
  rw [tryFmt] at h
  split at h
  · split at h
    · obtain rfl := Option.some.inj h
      assumption
    · exact absurd h (by simp)
  · exact absurd h (by simp)

theorem tryFmts_valid {fs : List (List FmtItem)} {s : String} {r : Nat × Nat × Nat}
    (h : tryFmts fs s = some r) : isValidYMD r.1 r.2.1 r.2.2 = true := by
  induction fs with
  | nil => exact absurd h (by simp [tryFmts])
  | cons f fs ih =>
    rw [tryFmts] at h
    split at h
    next r2 hf =>
      obtain rfl := Option.some.inj h
      exact tryFmt_valid hf
    next hf => exact ih h

theorem tryFmts_strftime {y m d : Nat} (hv : isValidYMD y m d = true) :
    tryFmts pyFormats (strftimeYMD y m d) = some (y, m, d) := by
  rw [pyFormats, tryFmts, tryFmt_strftime hv]

theorem formatDateStr_of_parsed {s : String} {y m d : Nat}
    (h : tryFmts pyFormats s = some (y, m, d)) : formatDateStr s = strftimeYMD y m d := by
  rw [formatDateStr, h]

/-- Idempotence of the string normalizer on all strings: a recognized string
    is rewritten to canonical `%Y-%m-%d` form, which reparses to the same
    date; an unrecognized string is returned unchanged. -/
theorem formatDateStr_idem (s : String) : formatDateStr (formatDateStr s) = formatDateStr s := by
  match h : tryFmts pyFormats s with
  | some (y, m, d) =>
    rw [formatDateStr_of_parsed h,
      formatDateStr_of_parsed (tryFmts_strftime (tryFmts_valid h))]
  | none =>
    have hs : formatDateStr s = s := by rw [formatDateStr, h]
    rw [hs]
    exact hs

/-! ### Remaining helper lemmas -/

theorem strftimeYMD_ne_empty (y m d : Nat) : strftimeYMD y m d ≠ "" := by
  intro h
  have hdata : (padZeros 4 y ++ '-' :: padZeros 2 m ++ '-' :: padZeros 2 d) = ([] : List Char) :=
    congrArg String.data h
  simp at hdata

theorem formatDateStr_ne_empty {s : String} (hs : s ≠ "") : formatDateStr s ≠ "" := by
  match h : tryFmts pyFormats s with
  | some (y, m, d) =>
    rw [formatDateStr_of_parsed h]
    exact strftimeYMD_ne_empty y m d
  | none =>
    rw [show formatDateStr s = s from by rw [formatDateStr, h]]
    exact hs

theorem foldl_append_singleton_eq_map {α β : Type} (l : List α) (g : α → β) (init : List β) :
    l.foldl (fun acc x => acc ++ [g x]) init = init ++ l.map g := by
  induction l generalizing init with
  | nil => simp
  | cons x l ih => rw [List.foldl_cons, List.map_cons, ih, List.append_assoc, List.singleton_append]

theorem codeFreqRows_eq_map (stats : List (Nat × Int × Int)) :
    codeFreqRows stats = stats.map (fun w => ⟨utcYmdStr w.1, w.2.1, w.2.2⟩) := by
  rw [codeFreqRows, foldl_append_singleton_eq_map, List.nil_append]

theorem truthy_eq_isSome {v : Option String} (h : v ≠ some "") :
    truthyMergedAt v = v.isSome := by
  match v with
  | none => rfl
  | some s =>
    have hs : s ≠ "" := fun hc => h (by rw [hc])
    rw [truthyMergedAt, Option.isSome_some]
    simp only [Bool.not_eq_true']
    exact Bool.eq_false_iff.2 (fun hemp => hs ((String.isEmpty_iff s).1 hemp))

/-! ### Claim theorems -/

/-- Claim C1: for every input sequence of weekly stats, month-frequency
    bucketing groups the weeks by the UTC calendar `(year, month)` of their
    start timestamps, sums `total` per group, and outputs exactly one entry
    per group keyed by the normalized first day of that month; in particular
    two weeks in 2024-03 with totals 5 and 7 yield `{"2024-03-01": 12}`. -/
theorem claim1_month_bucketing :
    (∀ stats : List WeeklyStat, bucketCommitActivity stats "month" = monthSpec stats)
    ∧ bucketCommitActivity
        [⟨1709424000, 5, [0, 1, 2, 0, 1, 1, 0]⟩, ⟨1710028800, 7, [0, 0, 7, 0, 0, 0, 0]⟩]
        "month"
      = [("2024-03-01", 12)] :=
  ⟨bucket_month_eq_monthSpec, by decide⟩

/-- Claim C2, counterexample: with two weeks sharing the same start
    timestamp, the day entry of the first week (index 0, count 1 > 0) is
    overwritten by the second week's entry for the same day, so the claimed
    entry `("1970-01-01", 1)` is absent from the result. -/
theorem claim2_counterexample :
    ("1970-01-01", (1 : Int)) ∉
      bucketCommitActivity
        [⟨0, 1, [1, 0, 0, 0, 0, 0, 0]⟩, ⟨0, 2, [2, 0, 0, 0, 0, 0, 0]⟩] "day"
    ∧ bucketCommitActivity
        [⟨0, 1, [1, 0, 0, 0, 0, 0, 0]⟩, ⟨0, 2, [2, 0, 0, 0, 0, 0, 0]⟩] "day"
      = [("1970-01-01", 2)] := by
  decide

/-- Claim C2, amended: every value in the day-bucketed result is strictly
    positive (zero days are omitted, never zero-filled), and whenever the
    emitted day keys are pairwise distinct the result is exactly the sequence
    of `(normalize(weekStart + i days), dailyCounts[i])` pairs with
    `dailyCounts[i] > 0`; on key collisions the last write wins. -/
theorem claim2_day_bucketing :
    (∀ stats : List WeeklyStat, ∀ e ∈ bucketCommitActivity stats "day", 0 < e.2)
    ∧ (∀ stats : List WeeklyStat, ((dayEntries stats).map Prod.fst).Nodup →
        bucketCommitActivity stats "day" = dayEntries stats) :=
  ⟨bucket_day_values_pos, bucket_day_eq_entries⟩

/-- Claim C2, witness at a concrete input. -/
theorem claim2_day_bucketing_witness :
    bucketCommitActivity [⟨1700000000, 3, [0, 1, 2, 0, 0, 0, 0]⟩] "day"
      = [("2023-11-15", 1), ("2023-11-16", 2)]
    ∧ 0 < (1 : Int) := by
  refine ⟨?_, by decide⟩
  rw [claim2_day_bucketing.2 [⟨1700000000, 3, [0, 1, 2, 0, 0, 0, 0]⟩] (by decide)]
  decide

/-- Claim C3, counterexample: two input weeks with equal start timestamps
    produce a single entry, not one entry per input week, and the first
    week's total is lost. -/
theorem claim3_counterexample :
    bucketCommitActivity [⟨0, 1, [0, 0, 0, 0, 0, 0, 0]⟩, ⟨0, 2, [0, 0, 0, 0, 0, 0, 0]⟩] "week"
      = [("1970-01-01", 2)]
    ∧ (bucketCommitActivity
        [⟨0, 1, [0, 0, 0, 0, 0, 0, 0]⟩, ⟨0, 2, [0, 0, 0, 0, 0, 0, 0]⟩] "week").length ≠ 2 := by
  decide

/-- Claim C3, amended: whenever the normalized week-start dates are pairwise
    distinct, week-frequency bucketing outputs exactly one entry per input
    week, keyed by the normalized start date with value `total` (on key
    collisions the last write wins); the empty input yields the empty
    mapping, and the singleton `{week: 1700000000, total: 3}` yields exactly
    `{normalize(1700000000): 3}`. -/
theorem claim3_week_bucketing :
    (∀ stats : List WeeklyStat, (stats.map (fun it => format_date (.ts it.week))).Nodup →
        bucketCommitActivity stats "week"
          = stats.map (fun it => (format_date (.ts it.week), it.total)))
    ∧ bucketCommitActivity [] "week" = []
    ∧ bucketCommitActivity [⟨1700000000, 3, [0, 1, 2, 0, 0, 0, 0]⟩] "week"
        = [("2023-11-14", 3)] :=
  ⟨bucket_week_eq_map, rfl, by decide⟩

/-- Claim C3, witness at a concrete two-week input. -/
theorem claim3_week_bucketing_witness :
    bucketCommitActivity
        [⟨1700000000, 3, [0, 1, 2, 0, 0, 0, 0]⟩, ⟨1700604800, 4, [0, 0, 0, 0, 0, 0, 0]⟩] "week"
      = [("2023-11-14", 3), ("2023-11-21", 4)] := by
  rw [claim3_week_bucketing.1 _ (by decide)]
  decide

/-- Claim C4, counterexample: a closed pull request whose `merged_at` is the
    empty string is non-null but falsy in Python, so the code counts it as
    unmerged while the claim counts it as merged. -/
theorem claim4_counterexample :
    (pullRequestCounts [] [⟨some ""⟩]).2.2 = 0
    ∧ (([⟨some ""⟩] : List PullRecord).filter (fun pr => pr.merged_at.isSome)).length = 1 := by
  decide

/-- Claim C4, amended: `open` is the open count; `merged` counts closed
    records whose `merged_at` is non-null and non-empty (Python truthiness);
    `closedUnmerged` is the closed count minus `merged`.  Whenever no closed
    record carries an empty-string `merged_at` — in particular on the
    upstream null-or-timestamp domain — `merged` equals the non-null count,
    and the claimed example yields `{open: 2, merged: 1, closedUnmerged: 1}`. -/
theorem claim4_pull_request_tally :
    (∀ openPrs closedPrs : List PullRecord,
        (∀ pr ∈ closedPrs, pr.merged_at ≠ some "") →
        pullRequestCounts openPrs closedPrs
          = (openPrs.length,
             closedPrs.length - (closedPrs.filter (fun pr => pr.merged_at.isSome)).length,
             (closedPrs.filter (fun pr => pr.merged_at.isSome)).length))
    ∧ pullRequestCounts [⟨none⟩, ⟨none⟩] [⟨none⟩, ⟨some "2024-01-01"⟩] = (2, 1, 1) := by
  constructor
  · intro openPrs closedPrs h
    have hf : closedPrs.filter (fun pr => truthyMergedAt pr.merged_at)
        = closedPrs.filter (fun pr => pr.merged_at.isSome) :=
      List.filter_congr (fun pr hpr => by rw [truthy_eq_isSome (h pr hpr)])
    rw [pullRequestCounts, hf]
  · decide

/-- Claim C4, witness at the claimed example. -/
theorem claim4_pull_request_tally_witness :
    pullRequestCounts [⟨none⟩, ⟨none⟩] [⟨none⟩, ⟨some "2024-01-01"⟩]
      = (2, 2 - 1, 1) := by
  rw [claim4_pull_request_tally.1 [⟨none⟩, ⟨none⟩] [⟨none⟩, ⟨some "2024-01-01"⟩] (by decide)]
  decide

/-- Claim C5, counterexample: the empty string matches none of the
    recognized formats, and the fallback returns it unchanged — an empty
    string, refuting "the fallback result is always a non-empty string". -/
theorem claim5_counterexample :
    tryFmts pyFormats "" = none
    ∧ format_date (.str "") = ""
    ∧ ("" : String).length = 0 := by
  decide

/-- Claim C5, amended: the normalizer is a total function (it never raises);
    any string matching none of the recognized formats, and any value of an
    unhandled type, is returned as its own string representation unchanged;
    the fallback result is non-empty whenever that representation is
    non-empty (the empty string is the only empty case). -/
theorem claim5_fallback :
    (∀ s : String, tryFmts pyFormats s = none → format_date (.str s) = s)
    ∧ (∀ r : String, format_date (.other r) = r)
    ∧ (∀ s : String, s ≠ "" → format_date (.str s) ≠ "") := by
  refine ⟨?_, fun r => rfl, ?_⟩
  · intro s h
    show formatDateStr s = s
    rw [formatDateStr, h]
  · intro s hs
    show formatDateStr s ≠ ""
    exact formatDateStr_ne_empty hs

/-- Claim C5, witness at a concrete unrecognized input. -/
theorem claim5_fallback_witness :
    format_date (.str "not-a-date") = "not-a-date"
    ∧ format_date (.str "not-a-date") ≠ "" :=
  ⟨claim5_fallback.1 "not-a-date" (by decide),
   claim5_fallback.2.2 "not-a-date" (by decide)⟩

/-- Claim C6: on every recognized date string the normalizer is idempotent —
    its output reparses (under the first format, `%Y-%m-%d`) to the same
    date and reformats to itself. -/
theorem claim6_idempotent (s : String) (_h : (tryFmts pyFormats s).isSome = true) :
    format_date (.str (format_date (.str s))) = format_date (.str s) :=
  formatDateStr_idem s

/-- Claim C6, witness at a concrete recognized input. -/
theorem claim6_idempotent_witness :
    (tryFmts pyFormats "2024/3/5").isSome = true
    ∧ format_date (.str (format_date (.str "2024/3/5"))) = format_date (.str "2024/3/5") :=
  ⟨by decide, claim6_idempotent "2024/3/5" (by decide)⟩

/-- Claim C7: the code-frequency reshaper outputs one row per input triple,
    preserving order: the k-th row is
    `{date: normalize(epochWeekStart_k), additions_k, deletions_k}`. -/
theorem claim7_code_frequency :
    (∀ stats : List (Nat × Int × Int),
        codeFreqRows stats = stats.map (fun w => ⟨format_date (.ts w.1), w.2.1, w.2.2⟩))
    ∧ ∀ stats : List (Nat × Int × Int), (codeFreqRows stats).length = stats.length := by
  have hmap : ∀ stats : List (Nat × Int × Int),
      codeFreqRows stats = stats.map (fun w => ⟨format_date (.ts w.1), w.2.1, w.2.2⟩) := by
    intro stats
    rw [codeFreqRows_eq_map]
    rfl
  refine ⟨hmap, fun stats => ?_⟩
  rw [hmap stats, List.length_map]

/-- Claim C8: an unrecognized frequency value matches no bucketing branch,
    so the result mapping is empty, both for the pure transform and for the
    endpoint on a 200 response. -/
theorem claim8_unrecognized_frequency :
    ∀ (stats : List WeeklyStat) (freq : String),
      freq ≠ "day" → freq ≠ "week" → freq ≠ "month" →
      bucketCommitActivity stats freq = []
        ∧ get_commits (.resp 200 stats) freq = .commit_frequency [] := by
  intro stats freq h1 h2 h3
  have hb : bucketCommitActivity stats freq = [] := by
    rw [bucketCommitActivity, if_neg (by simpa using h2), if_neg (by simpa using h1),
      if_neg (by simpa using h3)]
  refine ⟨hb, ?_⟩
  rw [get_commits, if_neg (by simp), if_neg (by simp)]
  by_cases he : stats.isEmpty
  · rw [if_pos he]
  · rw [if_neg he, hb]

/-- Claim C8, witness at a concrete unrecognized frequency. -/
theorem claim8_unrecognized_frequency_witness :
    bucketCommitActivity [⟨0, 5, [1, 1, 1, 1, 1, 1, 1]⟩] "year" = []
      ∧ get_commits (.resp 200 [⟨0, 5, [1, 1, 1, 1, 1, 1, 1]⟩]) "year"
        = .commit_frequency [] :=
  claim8_unrecognized_frequency [⟨0, 5, [1, 1, 1, 1, 1, 1, 1]⟩] "year"
    (by decide) (by decide) (by decide)

/-- Claim C9: every upstream status other than 200 and 202, and every
    transport or parse exception, degrades each endpoint to its empty-shaped
    response (empty row list, empty commit-frequency mapping, all-zero PR
    tally); no error is surfaced. -/
theorem claim9_error_handling :
    (∀ (status : Nat) (body : List (Nat × Int × Int)), status ≠ 200 → status ≠ 202 →
        get_code_frequency (.resp status body) = .rows [])
    ∧ (∀ (status : Nat) (body : List WeeklyStat) (freq : String),
        status ≠ 200 → status ≠ 202 →
        get_commits (.resp status body) freq = .commit_frequency [])
    ∧ get_code_frequency .exn = .rows []
    ∧ (∀ freq : String, get_commits .exn freq = .commit_frequency [])
    ∧ get_pull_requests none = (0, 0, 0) := by
  refine ⟨?_, ?_, rfl, fun freq => rfl, rfl⟩
  · intro status body h200 h202
    rw [get_code_frequency, if_neg (by simpa using h202), if_pos (by simpa using h200)]
  · intro status body freq h200 h202
    rw [get_commits, if_neg (by simpa using h202), if_pos (by simpa using h200)]

/-- Claim C9, witness at concrete error statuses. -/
theorem claim9_error_handling_witness :
    get_code_frequency (.resp 404 [(0, 1, 2)]) = .rows []
    ∧ get_commits (.resp 500 [⟨0, 1, [1]⟩]) "week" = .commit_frequency []
    ∧ get_commits .exn "day" = .commit_frequency [] :=
  ⟨claim9_error_handling.1 404 [(0, 1, 2)] (by decide) (by decide),
   claim9_error_handling.2.1 500 [⟨0, 1, [1]⟩] "week" (by decide) (by decide),
   claim9_error_handling.2.2.2.1 "day"⟩

/-- Claim C10: the string normalizer tries the formats in the fixed order
    `[%Y-%m-%d, %Y-%m, %Y/%m/%d, %d/%m/%Y, %m/%d/%Y]` and the first
    successful parse determines the result; in particular a string the
    day-first format accepts never reaches the month-first format. -/
theorem claim10_format_order (s : String) (y m d : Nat)
    (h1 : tryFmt fmtYMDdash s = none) (h2 : tryFmt fmtYMdash s = none)
    (h3 : tryFmt fmtYMDslash s = none) (h4 : tryFmt fmtDMYslash s = some (y, m, d)) :
    formatDateStr s = strftimeYMD y m d := by
  rw [formatDateStr, pyFormats]
  simp only [tryFmts, h1, h2, h3, h4]

/-- Claim C10, witness: `"03/04/2024"` parses day-first as 2024-04-03 and is
    never interpreted month-first as 2024-03-04. -/
theorem claim10_format_order_witness :
    formatDateStr "03/04/2024" = "2024-04-03"
    ∧ formatDateStr "03/04/2024" ≠ "2024-03-04" := by
  have h := claim10_format_order "03/04/2024" 2024 4 3
    (by decide) (by decide) (by decide) (by decide)
  rw [h]
  refine ⟨by decide, by decide⟩

end MetricsApp

